import Mathlib

/-!
Shallow embedding of the update orchestration engine of the
aleo-oracle-gateway repository, covering:

* `src/services/oracleService.ts` (the `OracleService` class): price tracking,
  deviation evaluation, notarizer failover, the `setSgxData` retry loop, the
  cron handlers and the per-coin job registry;
* `src/utils/pRetry.ts` (the `retry` wrapper over the p-retry library);
* `src/utils/leoExecutor.ts` (CLI result classification and transaction-id
  extraction);
* `src/utils/provableDelegatedProving.ts` (delegated-proving backend and
  `BroadcastError`).

External effects (network calls to notarizers, the Leo CLI subprocess, the
delegated prover, randomness, the filesystem and the clock) are passed in as
explicit environments; JavaScript numbers used for prices are modelled by `ℚ`
(exact rationals standing in for IEEE floats; none of the properties proved
here depend on rounding), and JavaScript exceptions by `Except` values.
-/

deriving instance DecidableEq for Except

namespace Oracle

/-! ### Transaction-id pattern and substring search (`leoExecutor.ts`) -/

/-- Characters matched by the character class `[0-9a-z]` of the transaction-id
regular expression `at[0-9a-z]{50,}` used throughout `leoExecutor.ts`. -/
def isTxnChar (c : Char) : Bool :=
  c.isDigit || c.isLower

/-- Length of the leading run of `[0-9a-z]` characters. -/
def txnRunLen (cs : List Char) : Nat :=
  (cs.takeWhile isTxnChar).length

/-- Attempt to match `at[0-9a-z]{50,}` at the current position: the literal
`at` must be followed by at least 50 characters in `[0-9a-z]`, and the greedy
quantifier takes the whole run. -/
def txnMatchHere (cs : List Char) : Option (List Char) :=
  match cs with
  | c1 :: c2 :: rest =>
      if c1 = 'a' ∧ c2 = 't' then
        if 50 ≤ txnRunLen rest then some (c1 :: c2 :: rest.takeWhile isTxnChar) else none
      else none
  | _ => none

/-- First match of the regular expression `at[0-9a-z]{50,}`, scanning the text
left to right exactly as `RegExp.prototype.test` and `String.prototype.match`
do: try a match at each position in turn. -/
def extractTxnList : List Char → Option (List Char)
  | [] => none
  | c :: rest =>
      match txnMatchHere (c :: rest) with
      | some m => some m
      | none => extractTxnList rest

/-- Model of `/at[0-9a-z]{50,}/.test(s)` (`leoExecutor.ts` lines 120 and
139-140). -/
def regexTestTxn (s : String) : Bool :=
  (extractTxnList s.data).isSome

/-- Generic substring test on character lists, modelling
`String.prototype.includes`. -/
def containsList (needle : List Char) : List Char → Bool
  | [] => needle.isEmpty
  | c :: rest => needle.isPrefixOf (c :: rest) || containsList needle rest

/-- Model of `hay.includes(needle)` for JavaScript strings. -/
def includesStr (hay needle : String) : Bool :=
  containsList needle.data hay.data

/-! ### Leo CLI execution results (`leoExecutor.ts`) -/

/-- The `LeoExecutionResult` interface of `leoExecutor.ts`. -/
structure LeoExecutionResult where
  success : Bool
  data : String
  errorOutput : String
  label : String
deriving DecidableEq, Repr

/-- The success classification performed in the `close` handler of
`executeLeo` (`leoExecutor.ts` lines 138-146): clean exit is
`code === 0 && !errorOutput`; a transaction id or a `status code 201` marker
in either stream also counts as success. -/
def leoCloseSuccess (code : Option Int) (dataOutput errorOutput : String) : Bool :=
  let hasTransactionId := regexTestTxn dataOutput || regexTestTxn errorOutput
  let hasSuccessStatus :=
    includesStr dataOutput "status code 201" || includesStr errorOutput "status code 201"
  let isCleanExit := code == some 0 && errorOutput == ""
  isCleanExit || hasTransactionId || hasSuccessStatus

/-- The full resolve/reject decision of the `close` handler of `executeLeo`
(`leoExecutor.ts` lines 146-154), including the rejection message. -/
def leoCloseResult (label : String) (code : Option Int) (dataOutput errorOutput : String) :
    Except String LeoExecutionResult :=
  if leoCloseSuccess code dataOutput errorOutput then
    Except.ok { success := true, data := dataOutput, errorOutput := errorOutput, label := label }
  else
    Except.error
      (if errorOutput.trim ≠ "" then "[" ++ label ++ "] " ++ errorOutput.trim
       else "[" ++ label ++ "] Process exited with code " ++
         (match code with | some c => toString c | none => "null"))

/-- Model of `extractTransactionId` (`leoExecutor.ts` lines 197-203):
`leoResult.data.match(regex) || leoResult.errorOutput?.match(regex)`. -/
def extractTransactionId (leoResult : LeoExecutionResult) : Option String :=
  match extractTxnList leoResult.data.data with
  | some m => some (String.mk m)
  | none =>
      match extractTxnList leoResult.errorOutput.data with
      | some m => some (String.mk m)
      | none => none

/-! ### Errors and the retry policy (`pRetry.ts`, `provableDelegatedProving.ts`) -/

/-- A JavaScript error value as far as the retry policy can observe it:
`isBroadcast` models `error instanceof BroadcastError`
(`provableDelegatedProving.ts` lines 9-14). -/
structure JsError where
  isBroadcast : Bool
  message : String
deriving DecidableEq, Repr

/-- Construction `new BroadcastError(message)`. -/
def broadcastErrorMk (message : String) : JsError :=
  { isBroadcast := true, message := message }

/-- Construction `new Error(message)` (not an instance of `BroadcastError`). -/
def plainErrorMk (message : String) : JsError :=
  { isBroadcast := false, message := message }

/-- Driver of the p-retry library as configured by `retry` in `pRetry.ts`:
the operation is attempted; on rejection `shouldRetry` is consulted with the
error and the number of retries left, and the operation is re-invoked only if
it returns true and retries remain.  The second component counts how many
times the operation was invoked.  The operation receives the 1-based attempt
number. -/
def pRetryGo (shouldRetry : JsError → Nat → Bool) (op : Nat → Except JsError α)
    (attemptNumber : Nat) : Nat → Except JsError α × Nat
  | 0 =>
      match op attemptNumber with
      | Except.ok a => (Except.ok a, 1)
      | Except.error e => (Except.error e, 1)
  | retriesLeft + 1 =>
      match op attemptNumber with
      | Except.ok a => (Except.ok a, 1)
      | Except.error e =>
          if shouldRetry e (retriesLeft + 1) then
            let r := pRetryGo shouldRetry op (attemptNumber + 1) retriesLeft
            (r.1, r.2 + 1)
          else (Except.error e, 1)

/-- The `shouldRetry` predicate passed to p-retry by `retry`
(`pRetry.ts` lines 30-33):
`!(error instanceof BroadcastError) && retriesLeft > 0`. -/
def shouldRetryImpl (e : JsError) (retriesLeft : Nat) : Bool :=
  (!e.isBroadcast) && decide (0 < retriesLeft)

/-- The `retry` wrapper of `pRetry.ts` (lines 22-41); backoff delays are
irrelevant to the properties below and are not modelled. -/
def retry (op : Nat → Except JsError α) (retries : Nat) : Except JsError α × Nat :=
  pRetryGo shouldRetryImpl op 1 retries

/-! ### Delegated proving (`provableDelegatedProving.ts`) -/

/-- Outcome of one attempt of the delegated-proving protocol, as observed at
the point of the broadcast check: either one of the earlier steps (JWT,
pubkey, proving request, encryption, POST) threw, or the prover answered and
`broadcast_result` carries `status_code` and `message`; `responseData` stands
for the serialized proving response. -/
inductive ProveStepOutcome where
  | stepFail (message : String)
  | proved (statusCode : Nat) (message : String) (responseData : String)
deriving DecidableEq, Repr

/-- The body of the `try` block inside `func` of
`executeWithProvableDelegatedProving` (`provableDelegatedProving.ts` lines
252-299): with broadcasting configured, a `status_code` other than 200 throws
a `BroadcastError`. -/
def delegatedProvingInner (label : String) (broadcast : Bool) (outcome : ProveStepOutcome) :
    Except JsError LeoExecutionResult :=
  match outcome with
  | ProveStepOutcome.stepFail message => Except.error (plainErrorMk message)
  | ProveStepOutcome.proved statusCode message responseData =>
      if broadcast && statusCode != 200 then
        Except.error (broadcastErrorMk
          (label ++ " Failed to broadcast proving request: " ++ message ++
            " with status code " ++ toString statusCode))
      else
        Except.ok { success := true, data := responseData, errorOutput := "", label := label }

/-- The whole `func` closure (`provableDelegatedProving.ts` lines 251-305):
the `catch` at lines 300-304 rethrows every error, including a
`BroadcastError`, as `new Error` with a wrapped message. -/
def delegatedProvingFunc (label : String) (broadcast : Bool) (env : Nat → ProveStepOutcome)
    (attemptNumber : Nat) : Except JsError LeoExecutionResult :=
  match delegatedProvingInner label broadcast (env attemptNumber) with
  | Except.ok r => Except.ok r
  | Except.error e =>
      Except.error (plainErrorMk ("[" ++ label ++ "] Delegated proving failed: " ++ e.message))

/-- `executeWithProvableDelegatedProving` returns
`retry({ func, label, retries: 1 })` (`provableDelegatedProving.ts` line
306); the second component counts invocations of `func`. -/
def executeWithProvableDelegatedProving (label : String) (broadcast : Bool)
    (env : Nat → ProveStepOutcome) : Except JsError LeoExecutionResult × Nat :=
  retry (delegatedProvingFunc label broadcast env) 1

/-! ### Number parsing (JavaScript `parseInt` / `parseFloat`) -/

/-- Value of a list of decimal digits. -/
def digitsVal (ds : List Char) : Nat :=
  ds.foldl (fun acc c => acc * 10 + (c.toNat - 48)) 0

/-- Model of `parseInt(s, 10)` on the already-trimmed tokens produced by
`getLastTrackedPrice`: an optional sign followed by leading digits; `none`
models `NaN`. -/
def parseIntJs (s : String) : Option Int :=
  match s.data with
  | '-' :: rest =>
      if (rest.takeWhile Char.isDigit).isEmpty then none
      else some (-(digitsVal (rest.takeWhile Char.isDigit) : Int))
  | '+' :: rest =>
      if (rest.takeWhile Char.isDigit).isEmpty then none
      else some ((digitsVal (rest.takeWhile Char.isDigit) : Int))
  | cs =>
      if (cs.takeWhile Char.isDigit).isEmpty then none
      else some ((digitsVal (cs.takeWhile Char.isDigit) : Int))

/-- Unsigned decimal literal: digits, an optional point, more digits; at
least one digit overall. -/
def parseUnsignedDec (cs : List Char) : Option ℚ :=
  let intPart := cs.takeWhile Char.isDigit
  let rest := cs.dropWhile Char.isDigit
  let fracPart :=
    match rest with
    | '.' :: r => r.takeWhile Char.isDigit
    | _ => []
  if intPart.isEmpty && fracPart.isEmpty then none
  else some ((digitsVal intPart : ℚ) + (digitsVal fracPart : ℚ) / ((10 : ℚ) ^ fracPart.length))

/-- Model of `parseFloat(s)` on plain decimal literals (the only shape the
price log ever holds); `none` models `NaN`. -/
def parseFloatJs (s : String) : Option ℚ :=
  match s.data with
  | '-' :: rest => (parseUnsignedDec rest).map (fun q => -q)
  | '+' :: rest => parseUnsignedDec rest
  | cs => parseUnsignedDec cs

/-! ### The price log on disk (`oracleService.ts`) -/

/-- The filesystem as a map from paths to file contents; `none` means the
file does not exist (`existsSync` returns false). -/
abbrev Fs := String → Option String

/-- The empty filesystem. -/
def fsEmpty : Fs := fun _ => none

/-- Appending a line to a file, creating it when absent; this is what the
append-mode `WriteStream` opened in `initialize` does on `write`. -/
def fsAppend (fs : Fs) (path line : String) : Fs :=
  fun p => if p = path then some (((fs path).getD "") ++ line) else fs p

/-- Model of `coin.toLowerCase()` (ASCII coin symbols only). -/
def jsToLowerCase (s : String) : String :=
  String.mk (s.data.map Char.toLower)

/-- The path the per-coin write stream is opened on in `initialize`
(`oracleService.ts` lines 179-194). -/
def priceFilePath (coin : String) : String :=
  "./prices/" ++ jsToLowerCase coin ++ "_price.txt"

/-- The path `getLastTrackedPrice` reads (`oracleService.ts` line 597).  The
template literal in the source contains literal spaces around the slashes and
before `_price`, so the string is reproduced here verbatim. -/
def lastTrackedPricePath (coin : String) : String :=
  "./ prices / " ++ jsToLowerCase coin ++ " _price.txt"

/-- Model of `trackCoinPrice` (`oracleService.ts` lines 290-301): append one
line of the form `<timestamp> <price>` to the coin's stream. -/
def trackCoinPrice (fs : Fs) (coinName : String) (timestamp : Nat) (price : String) : Fs :=
  fsAppend fs (priceFilePath coinName) (toString timestamp ++ " " ++ price ++ "\n")

/-- The `{ price, timestamp }` record returned by `getLastTrackedPrice`. -/
structure PriceData where
  price : ℚ
  timestamp : Int
deriving DecidableEq, Repr

/-- Model of `getLastTrackedPrice` (`oracleService.ts` lines 595-633): read
the file at `lastTrackedPricePath`, take the last nonempty line, split on a
space, parse timestamp and price, and return `none` on any failure. -/
def getLastTrackedPrice (fs : Fs) (coinName : String) : Option PriceData :=
  match fs (lastTrackedPricePath coinName) with
  | none => none
  | some fileContent =>
      let lines := (fileContent.trim.splitOn "\n").filter (fun line => line.trim != "")
      match lines.getLast? with
      | none => none
      | some lastLine =>
          match lastLine.trim.splitOn " " with
          | timestampStr :: priceStr :: _ =>
              if timestampStr = "" ∨ priceStr = "" then none
              else
                match parseIntJs timestampStr, parseFloatJs priceStr with
                | some t, some p => some { price := p, timestamp := t }
                | _, _ => none
          | _ => none

/-! ### Deviation evaluation (`oracleService.ts`) -/

/-- Per-token entry of `deviationBasedPriceUpdateCronConfig.tokens`. -/
structure DeviationTokenConfig where
  schedule : String
  enabled : Bool
  deviation : Option ℚ
deriving DecidableEq, Repr

/-- Model of `checkTokenPriceDeviation` (`oracleService.ts` lines 389-409)
for a non-null `lastPriceData`; prices are `ℚ` in place of IEEE floats.  The
JavaScript division by a zero last price (Infinity/NaN) is outside every
property proved here. -/
def checkTokenPriceDeviation (tokensCfg : String → Option DeviationTokenConfig)
    (coinName : String) (currentPrice : ℚ) (lastPriceData : PriceData) : Bool :=
  let deviationThreshold := ((tokensCfg coinName).bind (fun c => c.deviation)).getD 0
  let priceDifference := |currentPrice - lastPriceData.price|
  let deviationPercentage := priceDifference / lastPriceData.price * 100
  decide (deviationThreshold ≤ deviationPercentage)

/-! ### Notarizer failover (`oracleService.ts`) -/

/-- A notarizer endpoint from configuration. -/
structure Notarizer where
  address : String
  port : Nat
  https : Bool
  resolveFlag : Bool
deriving DecidableEq, Repr

/-- The `oracleData` proof bundle of an attestation response. -/
structure OracleData where
  report : String
  userData : String
  signature : String
  address : String
  requestHash : String
deriving DecidableEq, Repr

/-- The fields of an `AttestationResponse` the service reads. -/
structure AttestationResponse where
  oracleData : OracleData
  timestamp : Nat
  attestationData : String
  enclaveUrl : String
deriving DecidableEq, Repr

/-- Outcome of `oracleClient.notarize` for one notarizer: the call throws,
returns an empty (or missing) result list, or returns a first element. -/
inductive NotarizeOutcome where
  | throws (message : String)
  | empty
  | ok (resp : AttestationResponse)
deriving DecidableEq, Repr

/-- The destructuring swap
`[shuffled[i], shuffled[j]] = [shuffled[j]!, shuffled[i]!]`: both reads
happen before either write. -/
def listSwap (l : List Notarizer) (i j : Nat) : List Notarizer :=
  let d : Notarizer := { address := "", port := 0, https := false, resolveFlag := false }
  (l.set i (l.getD j d)).set j (l.getD i d)

/-- The Fisher-Yates loop of `shuffleNotarizers` (`oracleService.ts` lines
380-383), with `rand i % (i + 1)` standing for
`Math.floor(Math.random() * (i + 1))` at loop index `i`. -/
def shuffleGo (rand : Nat → Nat) : Nat → List Notarizer → List Notarizer
  | 0, l => l
  | i + 1, l => shuffleGo rand i (listSwap l (i + 1) (rand (i + 1) % (i + 2)))

/-- Model of `shuffleNotarizers` (`oracleService.ts` lines 378-387). -/
def shuffleNotarizers (rand : Nat → Nat) (notarizers : List Notarizer) : List Notarizer :=
  shuffleGo rand (notarizers.length - 1) notarizers

/-- Observable trace of the failover loop: the successful response if any,
the notarizers queried in order, and the `errorMsg` variable. -/
structure AttestTrace where
  result : Option AttestationResponse
  queried : List Notarizer
  errorMsg : Option String
deriving DecidableEq, Repr

/-- The `while (shuffledNotarizers.length > 0 && !success)` loop of
`getAttestationReport` (`oracleService.ts` lines 421-457).  Each iteration
picks a random index, removes that candidate (`splice`), and queries it; on
success it stops; on an empty result it assigns `errorMsg` and throws; the
`catch` only logs, so a thrown `notarize` error leaves `errorMsg` unchanged.
The fuel argument equals the length of the remaining list at every call, so
the recursion mirrors the loop exactly. -/
def attestationFailoverGo (coinName : String) (env : Notarizer → NotarizeOutcome)
    (picks : Nat → Nat) : Nat → List Notarizer → Nat → Option String → AttestTrace
  | 0, _, _, errorMsg => { result := none, queried := [], errorMsg := errorMsg }
  | _ + 1, [], _, errorMsg => { result := none, queried := [], errorMsg := errorMsg }
  | fuel + 1, notarizer :: more, step, errorMsg =>
      let remaining := notarizer :: more
      let idx := picks step % remaining.length
      let selected := remaining.getD idx notarizer
      let rest := remaining.eraseIdx idx
      match env selected with
      | NotarizeOutcome.ok resp =>
          { result := some resp, queried := [selected], errorMsg := errorMsg }
      | NotarizeOutcome.empty =>
          let e := "No notarization result received for " ++ coinName
          let r := attestationFailoverGo coinName env picks fuel rest (step + 1) (some e)
          { result := r.result, queried := selected :: r.queried, errorMsg := r.errorMsg }
      | NotarizeOutcome.throws _ =>
          let r := attestationFailoverGo coinName env picks fuel rest (step + 1) errorMsg
          { result := r.result, queried := selected :: r.queried, errorMsg := r.errorMsg }

/-- The failover loop started on a shuffled candidate list. -/
def attestationFailoverLoop (coinName : String) (env : Notarizer → NotarizeOutcome)
    (picks : Nat → Nat) (shuffled : List Notarizer) : AttestTrace :=
  attestationFailoverGo coinName env picks shuffled.length shuffled 0 none

/-- Model of `getAttestationReport` (`oracleService.ts` lines 411-472): run
the failover loop over a fresh shuffle; if no candidate succeeded, throw the
generic `No attestation report received for <coin>` error (line 468) - the
`errorMsg` variable is not consulted there. -/
def getAttestationReport (coinName : String) (env : Notarizer → NotarizeOutcome)
    (picks rand : Nat → Nat) (notarizers : List Notarizer) :
    Except String AttestationResponse :=
  let t := attestationFailoverLoop coinName env picks (shuffleNotarizers rand notarizers)
  match t.result with
  | some r => Except.ok r
  | none => Except.error ("No attestation report received for " ++ coinName)

/-! ### The `setSgxData` retry loop (`oracleService.ts`) -/

/-- The `{ coinName, txnId, errorMsg }` result of `setSgxData`. -/
structure SgxDataResult where
  coinName : String
  txnId : Option String
  errorMsg : Option String
deriving DecidableEq, Repr

/-- The static configuration `setSgxData` reads. -/
structure OracleCfg where
  notarizers : List Notarizer
  deviationTokens : String → Option DeviationTokenConfig

/-- External world as seen by iteration `k` of the `setSgxData` loop: the
notarize outcomes and random choices feeding that iteration's
`getAttestationReport` call, and the outcome of `delegateAleoTransaction`
(`Except.error` models a thrown submission error).  `delegateAleoTransaction`
itself is imported from `leoExecutor.js` but has no definition under `src/`;
its result contract (a `LeoExecutionResult` or a thrown error, §4.3 of the
spec) is all the loop depends on. -/
structure SetSgxEnv where
  notarize : Nat → Notarizer → NotarizeOutcome
  picks : Nat → Nat → Nat
  rand : Nat → Nat → Nat
  leo : Nat → Except String LeoExecutionResult

/-- Mutable state threaded through the loop: the filesystem, the `errorMsg`
variable, and a count of `delegateAleoTransaction` invocations. -/
structure SetSgxState where
  fs : Fs
  errorMsg : Option String
  submissions : Nat

/-- Result of running the loop for a bounded number of iterations:
`out = none` means the fuel ran out with `success` still false (the loop is
still running); `out = some response` means the loop exited, returning
`response as SgxDataResult` (which is null when no update was needed). -/
structure SetSgxLoopResult where
  out : Option (Option SgxDataResult)
  state : SetSgxState

/-- Message of the TypeError raised when `checkTokenPriceDeviation`
dereferences a null `lastPriceData` (`oracleService.ts` lines 393 and 524). -/
def typeErrorNullPrice : String :=
  "Cannot read properties of null (reading price)"

/-- The `while (!success)` loop of `setSgxData` (`oracleService.ts` lines
509-566), iteration by iteration.  Each iteration: call
`getAttestationReport`; on success append to the price log; when
`checkDeviation` is set, call `getLastTrackedPrice` and feed it (cast
non-null) to `checkTokenPriceDeviation` - a null value raises a TypeError
that the iteration's `catch` swallows; when no update is needed set `success`
and exit with a null response; otherwise submit via
`delegateAleoTransaction` and extract a transaction id.  The `catch` records
the first error message only (`if (!errorMsg)`), except the
transaction-id-not-found path which assigns `errorMsg` unconditionally before
throwing.  No branch of the body ever breaks out of the loop with `success`
still false. -/
def setSgxDataLoop (cfg : OracleCfg) (env : SetSgxEnv) (coinName : String)
    (checkDeviation : Bool) : Nat → Nat → SetSgxState → SetSgxLoopResult
  | 0, _, st => { out := none, state := st }
  | fuel + 1, k, st =>
      match getAttestationReport coinName (env.notarize k) (env.picks k) (env.rand k)
          cfg.notarizers with
      | Except.error e =>
          setSgxDataLoop cfg env coinName checkDeviation fuel (k + 1)
            { st with errorMsg := some (st.errorMsg.getD e) }
      | Except.ok result =>
          let fs1 := trackCoinPrice st.fs coinName result.timestamp result.attestationData
          let st1 : SetSgxState := { st with fs := fs1 }
          let gate : Except String Bool :=
            if checkDeviation then
              match getLastTrackedPrice fs1 coinName with
              | none => Except.error typeErrorNullPrice
              | some lastPriceData =>
                  Except.ok
                    (match parseFloatJs result.attestationData with
                     | some current =>
                         checkTokenPriceDeviation cfg.deviationTokens coinName current
                           lastPriceData
                     | none => false)
            else Except.ok true
          match gate with
          | Except.error e =>
              setSgxDataLoop cfg env coinName checkDeviation fuel (k + 1)
                { st1 with errorMsg := some (st1.errorMsg.getD e) }
          | Except.ok false => { out := some none, state := st1 }
          | Except.ok true =>
              match env.leo k with
              | Except.error e =>
                  setSgxDataLoop cfg env coinName checkDeviation fuel (k + 1)
                    { st1 with errorMsg := some (st1.errorMsg.getD e),
                               submissions := st1.submissions + 1 }
              | Except.ok leoResult =>
                  match extractTransactionId leoResult with
                  | some transactionId =>
                      { out := some (some { coinName := coinName,
                                            txnId := some transactionId, errorMsg := none }),
                        state := { st1 with submissions := st1.submissions + 1 } }
                  | none =>
                      setSgxDataLoop cfg env coinName checkDeviation fuel (k + 1)
                        { st1 with
                            errorMsg := some ("Transaction ID not found in leo output for " ++
                              coinName ++ " with error " ++ leoResult.errorOutput),
                            submissions := st1.submissions + 1 }

/-- `setSgxData` run from a fresh local state over a given filesystem. -/
def setSgxData (cfg : OracleCfg) (env : SetSgxEnv) (fs0 : Fs) (coinName : String)
    (checkDeviation : Bool) (fuel : Nat) : SetSgxLoopResult :=
  setSgxDataLoop cfg env coinName checkDeviation fuel 0
    { fs := fs0, errorMsg := none, submissions := 0 }

/-! ### Job statistics and the cron handlers (`oracleService.ts`) -/

/-- The `CoinStats` interface; dates are modelled by `Option Nat` clock
values. -/
structure CoinStats where
  totalRuns : Nat
  successfulRuns : Nat
  failedRuns : Nat
  lastRun : Option Nat
  lastSuccess : Option Nat
  lastError : Option Nat
  cronEnabled : Bool
  cronSchedule : String
deriving DecidableEq, Repr

/-- A freshly allocated stats record. -/
def freshCoinStats (enabled : Bool) (schedule : String) : CoinStats :=
  { totalRuns := 0, successfulRuns := 0, failedRuns := 0, lastRun := none,
    lastSuccess := none, lastError := none, cronEnabled := enabled,
    cronSchedule := schedule }

/-- Inputs of one timer tick: the external environment feeding that run's
`setSgxData` call, the clock value, and a bound on how many iterations of the
inner `while (!success)` loop are observed (the loop may outlast any bound -
then the invocation has not completed). -/
structure TickEnv where
  env : SetSgxEnv
  now : Nat
  fuel : Nat

/-- What a cron-handler invocation leaves behind: whether the invocation
completed within the observed bound (`setSgxData` either returns or loops
forever - every error re-enters its `while (!success)` loop, so it never
throws, and the handlers' catch branches and outer rethrows are dead code),
the coin's stats record, the filesystem after the run's price-log appends,
and the response returned on completion. -/
structure CronRunResult where
  completed : Bool
  stats : CoinStats
  fs : Fs
  response : Option SgxDataResult

/-- Model of `handleDeviationBasedPriceUpdateCron` (`oracleService.ts` lines
641-730) composed with the real `setSgxData` loop.  Stats are created lazily
and `totalRuns`/`lastRun` are updated before the call.  Both the
no-prior-price branch (lines 672-679) and the inner-try branch (lines
687-720) await `setSgxData` with `checkDeviation: true` and, when it
returns, increment `successfulRuns` and set `lastSuccess`; the inner catch's
`errorCount`/`failedRuns` path and the outer catch's rethrow would require a
throwing `setSgxData` and are unreachable. -/
def handleDeviationBasedPriceUpdateCron (cfg : OracleCfg) (schedule coinName : String)
    (tick : TickEnv) (stats0 : Option CoinStats) (fs : Fs) : CronRunResult :=
  let statsInit := stats0.getD (freshCoinStats true schedule)
  let stats := { statsInit with totalRuns := statsInit.totalRuns + 1,
                                lastRun := some tick.now }
  let r := setSgxDataLoop cfg tick.env coinName true tick.fuel 0
    { fs := fs, errorMsg := none, submissions := 0 }
  match getLastTrackedPrice fs coinName with
  | none =>
      match r.out with
      | none => { completed := false, stats := stats, fs := r.state.fs, response := none }
      | some resp =>
          { completed := true,
            stats := { stats with successfulRuns := stats.successfulRuns + 1,
                                  lastSuccess := some tick.now },
            fs := r.state.fs, response := resp }
  | some _ =>
      match r.out with
      | none => { completed := false, stats := stats, fs := r.state.fs, response := none }
      | some resp =>
          { completed := true,
            stats := { stats with successfulRuns := stats.successfulRuns + 1,
                                  lastSuccess := some tick.now },
            fs := r.state.fs, response := resp }

/-- Model of `handlePeriodicPriceUpdateCron` (`oracleService.ts` lines
737-824) composed with the real `setSgxData` loop (`checkDeviation: false`).
The notification calls never throw (`discordNotifier.sendEmbed` catches
internally and returns a boolean), and the inner catch's `failedRuns`
accounting is dead code for the same reason as in the deviation handler. -/
def handlePeriodicPriceUpdateCron (cfg : OracleCfg) (schedule coinName : String)
    (tick : TickEnv) (stats0 : Option CoinStats) (fs : Fs) : CronRunResult :=
  let statsInit := stats0.getD (freshCoinStats true schedule)
  let stats := { statsInit with totalRuns := statsInit.totalRuns + 1,
                                lastRun := some tick.now }
  let r := setSgxDataLoop cfg tick.env coinName false tick.fuel 0
    { fs := fs, errorMsg := none, submissions := 0 }
  match r.out with
  | none => { completed := false, stats := stats, fs := r.state.fs, response := none }
  | some resp =>
      { completed := true,
        stats := { stats with successfulRuns := stats.successfulRuns + 1,
                              lastSuccess := some tick.now },
        fs := r.state.fs, response := resp }

/-- Result of a sequence of ticks for one (coin, job-kind): the stats record,
the filesystem, and whether every invocation completed.  An invocation whose
`setSgxData` call never returns blocks its async chain, so later ticks of the
sequential history do not execute. -/
structure TicksResult where
  stats : Option CoinStats
  fs : Fs
  allCompleted : Bool

/-- Sequential run history of the deviation handler for one coin. -/
def runDeviationCronTicks (cfg : OracleCfg) (schedule coinName : String) :
    List TickEnv → Option CoinStats → Fs → TicksResult
  | [], stats, fs => { stats := stats, fs := fs, allCompleted := true }
  | tick :: rest, stats, fs =>
      let r := handleDeviationBasedPriceUpdateCron cfg schedule coinName tick stats fs
      if r.completed then runDeviationCronTicks cfg schedule coinName rest (some r.stats) r.fs
      else { stats := some r.stats, fs := r.fs, allCompleted := false }

/-- Sequential run history of the periodic handler for one coin. -/
def runPeriodicCronTicks (cfg : OracleCfg) (schedule coinName : String) :
    List TickEnv → Option CoinStats → Fs → TicksResult
  | [], stats, fs => { stats := stats, fs := fs, allCompleted := true }
  | tick :: rest, stats, fs =>
      let r := handlePeriodicPriceUpdateCron cfg schedule coinName tick stats fs
      if r.completed then runPeriodicCronTicks cfg schedule coinName rest (some r.stats) r.fs
      else { stats := some r.stats, fs := r.fs, allCompleted := false }

/-! ### The per-coin job registry (`oracleService.ts`) -/

/-- Per-token entry of a cron configuration (`tokens[coin]`). -/
structure TokenCronConfig where
  schedule : String
  enabled : Bool
deriving DecidableEq, Repr

/-- The mutable registry owned by `OracleService`: per-coin stats records and
cron-job timers for both job kinds (a `true` timer entry models a non-null
`CronJob`). -/
structure SchedulerState where
  periodicStats : String → Option CoinStats
  deviationStats : String → Option CoinStats
  periodicJob : String → Bool
  deviationJob : String → Bool

/-- Point update of a string-keyed map. -/
def setFun (f : String → α) (key : String) (v : α) : String → α :=
  fun x => if x = key then v else f x

/-- The per-coin body of `startPeriodicPriceUpdateCron` (`oracleService.ts`
lines 904-957): skip if a job is already running; if the cron is enabled but
the schedule is invalid, skip; otherwise write a fresh stats record
UNCONDITIONALLY (line 923 sits outside the `if (cronEnabled)` guards) and arm
the timer only when the cron is enabled. -/
def startPeriodicForCoin (validate : String → Bool) (tokens : String → Option TokenCronConfig)
    (st : SchedulerState) (coin : String) : SchedulerState :=
  if st.periodicJob coin then st
  else
    let cronEnabled := ((tokens coin).map (fun c => c.enabled)).getD false
    let cronSchedule := ((tokens coin).map (fun c => c.schedule)).getD ""
    if cronEnabled && !(validate cronSchedule) then st
    else
      let st1 := { st with
        periodicStats := setFun st.periodicStats coin
          (some (freshCoinStats cronEnabled cronSchedule)) }
      if cronEnabled then { st1 with periodicJob := setFun st1.periodicJob coin true }
      else st1

/-- The per-coin body of `startDeviationBasedPriceUpdateCron`
(`oracleService.ts` lines 836-892): everything is guarded by
`tokenConfig?.enabled`; stats are written only when absent; the timer is
armed afterwards. -/
def startDeviationForCoin (validate : String → Bool) (tokens : String → Option TokenCronConfig)
    (st : SchedulerState) (coin : String) : SchedulerState :=
  if st.deviationJob coin then st
  else
    let cronEnabled := ((tokens coin).map (fun c => c.enabled)).getD false
    let cronSchedule := ((tokens coin).map (fun c => c.schedule)).getD ""
    if cronEnabled then
      if !(validate cronSchedule) then st
      else
        let freshEntry := some (freshCoinStats cronEnabled cronSchedule)
        let st1 :=
          match st.deviationStats coin with
          | none => { st with deviationStats := setFun st.deviationStats coin freshEntry }
          | some _ => st
        { st1 with deviationJob := setFun st1.deviationJob coin true }
    else st

/-- The per-coin body of `stopPeriodicPriceUpdateCron` (`oracleService.ts`
lines 988-1008): when a job exists, stop it and null both the job and the
stats entry. -/
def stopPeriodicForCoin (st : SchedulerState) (coin : String) : SchedulerState :=
  if st.periodicJob coin then
    { st with periodicJob := setFun st.periodicJob coin false,
              periodicStats := setFun st.periodicStats coin none }
  else st

/-- The per-coin body of `stopDeviationBasedPriceUpdateCron`
(`oracleService.ts` lines 1019-1039). -/
def stopDeviationForCoin (st : SchedulerState) (coin : String) : SchedulerState :=
  if st.deviationJob coin then
    { st with deviationJob := setFun st.deviationJob coin false,
              deviationStats := setFun st.deviationStats coin none }
  else st

/-- A start or stop call on the control surface; `none` targets every coin
of `COIN_LIST`. -/
inductive SchedOp where
  | startPeriodic (target : Option String)
  | stopPeriodic (target : Option String)
  | startDeviation (target : Option String)
  | stopDeviation (target : Option String)
deriving DecidableEq, Repr

/-- `const coins = coinName ? [coinName] : COIN_LIST`. -/
def resolveCoins (coinList : List String) (target : Option String) : List String :=
  match target with
  | some coin => [coin]
  | none => coinList

/-- One start/stop call, folding the per-coin body over the targeted coins. -/
def applySchedOp (validate : String → Bool)
    (periodicTokens deviationTokens : String → Option TokenCronConfig)
    (coinList : List String) (st : SchedulerState) (op : SchedOp) : SchedulerState :=
  match op with
  | SchedOp.startPeriodic target =>
      (resolveCoins coinList target).foldl (startPeriodicForCoin validate periodicTokens) st
  | SchedOp.stopPeriodic target =>
      (resolveCoins coinList target).foldl stopPeriodicForCoin st
  | SchedOp.startDeviation target =>
      (resolveCoins coinList target).foldl (startDeviationForCoin validate deviationTokens) st
  | SchedOp.stopDeviation target =>
      (resolveCoins coinList target).foldl stopDeviationForCoin st

/-- The registry at service construction: no stats, no timers. -/
def initSchedulerState : SchedulerState :=
  { periodicStats := fun _ => none, deviationStats := fun _ => none,
    periodicJob := fun _ => false, deviationJob := fun _ => false }

/-- A sequence of start/stop calls applied to the fresh registry. -/
def runSchedOps (validate : String → Bool)
    (periodicTokens deviationTokens : String → Option TokenCronConfig)
    (coinList : List String) (ops : List SchedOp) : SchedulerState :=
  ops.foldl (applySchedOp validate periodicTokens deviationTokens coinList) initSchedulerState

/-! ## Claim C9: a BroadcastError reaching `retry` stops all further attempts -/

/-- Claim C9: for every operation wrapped by `retry` and every configured
retries ceiling, if the first attempt throws an error classified as a
broadcast rejection (`BroadcastError`), the operation is invoked exactly once
and the error is surfaced unchanged, regardless of retries remaining. -/
theorem c9_retry_broadcast_error_single_invocation {α : Type} (op : Nat → Except JsError α)
    (retries : Nat) (e : JsError) (hop : op 1 = Except.error e) (hb : e.isBroadcast = true) :
    retry op retries = (Except.error e, 1) := by
  cases retries with
  | zero => simp [retry, pRetryGo, hop]
  | succ n => simp [retry, pRetryGo, hop, shouldRetryImpl, hb]

/-- Witness for C9: a concrete always-broadcast-rejecting operation under the
default ceiling of 5 retries runs exactly once. -/
theorem c9_retry_broadcast_error_single_invocation_witness :
    retry (fun _ => (Except.error (broadcastErrorMk "transaction rejected") :
      Except JsError LeoExecutionResult)) 5
      = (Except.error (broadcastErrorMk "transaction rejected"), 1) :=
  c9_retry_broadcast_error_single_invocation _ 5 _ rfl rfl

/-! ## Claim C6: a non-200 broadcast result and the retry wrapper -/

/-- Concrete delegated-proving environment for C6: every attempt reaches the
prover and gets `broadcast_result.status_code = 500`. -/
def c6Env : Nat → ProveStepOutcome :=
  fun _ => ProveStepOutcome.proved 500 "Transaction rejected" "response"

/-- Claim C6 fails on the code: with broadcasting configured and a broadcast
status code of 500, the inner `try` block does throw a `BroadcastError`, but
the `catch` of `func` (`provableDelegatedProving.ts` lines 300-304) rethrows
it as a plain `Error`, so the error reaching the retry wrapper is NOT
classified as a broadcast rejection, and with `retries: 1` the operation is
invoked a second time. -/
theorem c6_broadcast_error_rewrapped_and_retried :
    (match delegatedProvingInner "[SET_SGX_DATA:BTC]" true (c6Env 1) with
     | Except.error e => e.isBroadcast
     | Except.ok _ => false) = true
    ∧ (match delegatedProvingFunc "[SET_SGX_DATA:BTC]" true c6Env 1 with
       | Except.error e => e.isBroadcast
       | Except.ok _ => true) = false
    ∧ (executeWithProvableDelegatedProving "[SET_SGX_DATA:BTC]" true c6Env).2 = 2 := by
  decide

/-! ## Claim C4: the JobStats balance invariant across handler completions -/

theorem handleDeviationCron_balance (cfg : OracleCfg) (schedule coinName : String)
    (tick : TickEnv) (stats0 : Option CoinStats) (fs : Fs)
    (h0 : ∀ s, stats0 = some s → s.totalRuns = s.successfulRuns + s.failedRuns)
    (hc : (handleDeviationBasedPriceUpdateCron cfg schedule coinName tick stats0 fs).completed
      = true) :
    (handleDeviationBasedPriceUpdateCron cfg schedule coinName tick stats0 fs).stats.totalRuns
      = (handleDeviationBasedPriceUpdateCron cfg schedule coinName tick stats0
          fs).stats.successfulRuns
        + (handleDeviationBasedPriceUpdateCron cfg schedule coinName tick stats0
            fs).stats.failedRuns := by
  have hbase : (stats0.getD (freshCoinStats true schedule)).totalRuns =
      (stats0.getD (freshCoinStats true schedule)).successfulRuns +
        (stats0.getD (freshCoinStats true schedule)).failedRuns := by
    cases stats0 with
    | none => rfl
    | some s => exact h0 s rfl
  cases h1 : getLastTrackedPrice fs coinName with
  | none =>
      cases h2 : (setSgxDataLoop cfg tick.env coinName true tick.fuel 0
          { fs := fs, errorMsg := none, submissions := 0 }).out with
      | none =>
          simp only [handleDeviationBasedPriceUpdateCron, h1, h2] at hc
          exact absurd hc (by simp)
      | some resp =>
          simp only [handleDeviationBasedPriceUpdateCron, h1, h2]
          omega
  | some lp =>
      cases h2 : (setSgxDataLoop cfg tick.env coinName true tick.fuel 0
          { fs := fs, errorMsg := none, submissions := 0 }).out with
      | none =>
          simp only [handleDeviationBasedPriceUpdateCron, h1, h2] at hc
          exact absurd hc (by simp)
      | some resp =>
          simp only [handleDeviationBasedPriceUpdateCron, h1, h2]
          omega

theorem handlePeriodicCron_balance (cfg : OracleCfg) (schedule coinName : String)
    (tick : TickEnv) (stats0 : Option CoinStats) (fs : Fs)
    (h0 : ∀ s, stats0 = some s → s.totalRuns = s.successfulRuns + s.failedRuns)
    (hc : (handlePeriodicPriceUpdateCron cfg schedule coinName tick stats0 fs).completed
      = true) :
    (handlePeriodicPriceUpdateCron cfg schedule coinName tick stats0 fs).stats.totalRuns
      = (handlePeriodicPriceUpdateCron cfg schedule coinName tick stats0
          fs).stats.successfulRuns
        + (handlePeriodicPriceUpdateCron cfg schedule coinName tick stats0
            fs).stats.failedRuns := by
  have hbase : (stats0.getD (freshCoinStats true schedule)).totalRuns =
      (stats0.getD (freshCoinStats true schedule)).successfulRuns +
        (stats0.getD (freshCoinStats true schedule)).failedRuns := by
    cases stats0 with
    | none => rfl
    | some s => exact h0 s rfl
  cases h2 : (setSgxDataLoop cfg tick.env coinName false tick.fuel 0
      { fs := fs, errorMsg := none, submissions := 0 }).out with
  | none =>
      simp only [handlePeriodicPriceUpdateCron, h2] at hc
      exact absurd hc (by simp)
  | some resp =>
      simp only [handlePeriodicPriceUpdateCron, h2]
      omega

theorem runDeviationCronTicks_balance (cfg : OracleCfg) (schedule coinName : String) :
    ∀ (ticks : List TickEnv) (stats0 : Option CoinStats) (fs : Fs),
      (∀ s, stats0 = some s → s.totalRuns = s.successfulRuns + s.failedRuns) →
      (runDeviationCronTicks cfg schedule coinName ticks stats0 fs).allCompleted = true →
      ∀ s, (runDeviationCronTicks cfg schedule coinName ticks stats0 fs).stats = some s →
        s.totalRuns = s.successfulRuns + s.failedRuns := by
  intro ticks
  induction ticks with
  | nil =>
      intro stats0 fs h0 hall s hs
      exact h0 s hs
  | cons tick rest ih =>
      intro stats0 fs h0 hall s hs
      by_cases hc :
        (handleDeviationBasedPriceUpdateCron cfg schedule coinName tick stats0 fs).completed
          = true
      · have hbal := handleDeviationCron_balance cfg schedule coinName tick stats0 fs h0 hc
        have hstep : runDeviationCronTicks cfg schedule coinName (tick :: rest) stats0 fs =
            runDeviationCronTicks cfg schedule coinName rest
              (some (handleDeviationBasedPriceUpdateCron cfg schedule coinName tick stats0
                fs).stats)
              (handleDeviationBasedPriceUpdateCron cfg schedule coinName tick stats0 fs).fs := by
          simp only [runDeviationCronTicks]
          rw [if_pos hc]
        rw [hstep] at hall hs
        exact ih _ _ (fun s2 hs2 => by injection hs2 with h; exact h ▸ hbal) hall s hs
      · have hstep : (runDeviationCronTicks cfg schedule coinName (tick :: rest) stats0
            fs).allCompleted = false := by
          simp only [runDeviationCronTicks]
          rw [if_neg hc]
        rw [hstep] at hall
        exact absurd hall (by simp)

theorem runPeriodicCronTicks_balance (cfg : OracleCfg) (schedule coinName : String) :
    ∀ (ticks : List TickEnv) (stats0 : Option CoinStats) (fs : Fs),
      (∀ s, stats0 = some s → s.totalRuns = s.successfulRuns + s.failedRuns) →
      (runPeriodicCronTicks cfg schedule coinName ticks stats0 fs).allCompleted = true →
      ∀ s, (runPeriodicCronTicks cfg schedule coinName ticks stats0 fs).stats = some s →
        s.totalRuns = s.successfulRuns + s.failedRuns := by
  intro ticks
  induction ticks with
  | nil =>
      intro stats0 fs h0 hall s hs
      exact h0 s hs
  | cons tick rest ih =>
      intro stats0 fs h0 hall s hs
      by_cases hc :
        (handlePeriodicPriceUpdateCron cfg schedule coinName tick stats0 fs).completed = true
      · have hbal := handlePeriodicCron_balance cfg schedule coinName tick stats0 fs h0 hc
        have hstep : runPeriodicCronTicks cfg schedule coinName (tick :: rest) stats0 fs =
            runPeriodicCronTicks cfg schedule coinName rest
              (some (handlePeriodicPriceUpdateCron cfg schedule coinName tick stats0 fs).stats)
              (handlePeriodicPriceUpdateCron cfg schedule coinName tick stats0 fs).fs := by
          simp only [runPeriodicCronTicks]
          rw [if_pos hc]
        rw [hstep] at hall hs
        exact ih _ _ (fun s2 hs2 => by injection hs2 with h; exact h ▸ hbal) hall s hs
      · have hstep : (runPeriodicCronTicks cfg schedule coinName (tick :: rest) stats0
            fs).allCompleted = false := by
          simp only [runPeriodicCronTicks]
          rw [if_neg hc]
        rw [hstep] at hall
        exact absurd hall (by simp)

/-- Claim C4: for every coin, both job kinds, and every sequence of runs,
after each invocation of the cron handler completes the job-kind's stats
satisfy `totalRuns = successfulRuns + failedRuns`.  Each handler increments
`totalRuns` once before its `setSgxData` call and exactly one of the outcome
counters once when the call returns; `setSgxData` never throws (its loop
swallows every error, claim C1), so an invocation either completes with
balanced counters or never completes at all. -/
theorem c4_stats_balance_after_every_completed_run (cfg : OracleCfg)
    (schedule coinName : String) (ticks : List TickEnv) (fs0 : Fs) :
    ((runDeviationCronTicks cfg schedule coinName ticks none fs0).allCompleted = true →
      ∀ s, (runDeviationCronTicks cfg schedule coinName ticks none fs0).stats = some s →
        s.totalRuns = s.successfulRuns + s.failedRuns) ∧
    ((runPeriodicCronTicks cfg schedule coinName ticks none fs0).allCompleted = true →
      ∀ s, (runPeriodicCronTicks cfg schedule coinName ticks none fs0).stats = some s →
        s.totalRuns = s.successfulRuns + s.failedRuns) :=
  ⟨runDeviationCronTicks_balance cfg schedule coinName ticks none fs0
      (fun _ hs => Option.noConfusion hs),
    runPeriodicCronTicks_balance cfg schedule coinName ticks none fs0
      (fun _ hs => Option.noConfusion hs)⟩

/-- The notarizer endpoint used in the C4 witness. -/
def c4WitNotarizer : Notarizer :=
  { address := "n4.example", port := 8400, https := false, resolveFlag := false }

/-- Configuration for the C4 witness. -/
def c4WitCfg : OracleCfg :=
  { notarizers := [c4WitNotarizer], deviationTokens := fun _ => none }

/-- Proof bundle of the attestation used in the C4 witness. -/
def c4WitOracleData : OracleData :=
  { report := "report4", userData := "userData4", signature := "signature4",
    address := "address4", requestHash := "requestHash4" }

/-- Attestation returned by every notarize call of the C4 witness run. -/
def c4WitResp : AttestationResponse :=
  { oracleData := c4WitOracleData, timestamp := 5, attestationData := "250",
    enclaveUrl := "https://enclave4.example" }

/-- CLI result of the C4 witness run; its output contains a transaction id. -/
def c4WitLeoResult : LeoExecutionResult :=
  { success := true, data := String.mk ('a' :: 't' :: List.replicate 50 'x'),
    errorOutput := "", label := "SET_SGX_DATA:BTC" }

/-- Environment of the single C4 witness tick: attestation and submission
both succeed, so the run completes after one loop iteration. -/
def c4WitEnv : SetSgxEnv :=
  { notarize := fun _ _ => NotarizeOutcome.ok c4WitResp,
    picks := fun _ _ => 0, rand := fun _ _ => 0,
    leo := fun _ => Except.ok c4WitLeoResult }

/-- The single tick of the C4 witness. -/
def c4WitTick : TickEnv := { env := c4WitEnv, now := 1000, fuel := 1 }

/-- Stats record after the C4 witness run. -/
def c4WitStats : CoinStats :=
  { totalRuns := 1, successfulRuns := 1, failedRuns := 0, lastRun := some 1000,
    lastSuccess := some 1000, lastError := none, cronEnabled := true,
    cronSchedule := "*/5 * * * *" }

/-- Witness for C4: one completed periodic run from fresh stats yields
balanced counters via the theorem. -/
theorem c4_stats_balance_after_every_completed_run_witness :
    c4WitStats.totalRuns = c4WitStats.successfulRuns + c4WitStats.failedRuns :=
  (c4_stats_balance_after_every_completed_run c4WitCfg "*/5 * * * *" "BTC" [c4WitTick]
      fsEmpty).2 (by decide) c4WitStats (by decide)

/-! ## Claim C2: tracked prices are not read back -/

/-- Claim C2 fails on the code: after `trackCoinPrice` appends the pair
`(1700000000000, "50000.5")` for coin BTC, the line is durably present at the
writer's path `./prices/btc_price.txt`, but `getLastTrackedPrice` reads the
distinct path with embedded spaces from line 597 and returns `none` instead
of the pair. -/
theorem c2_track_then_get_returns_none :
    priceFilePath "BTC" ≠ lastTrackedPricePath "BTC"
    ∧ (trackCoinPrice fsEmpty "BTC" 1700000000000 "50000.5") (priceFilePath "BTC")
        = some "1700000000000 50000.5\n"
    ∧ getLastTrackedPrice (trackCoinPrice fsEmpty "BTC" 1700000000000 "50000.5") "BTC"
        = none := by
  refine ⟨by decide, by decide, ?_⟩
  decide

/-! ## Claim C8: the CLI success classification -/

/-- Spec-side reading of "a token matching `at[0-9a-z]{50,}` appears in the
stream": somewhere in the text, `at` is followed by at least 50 characters
from `[0-9a-z]`. -/
def TxnTokenIn (s : String) : Prop :=
  ∃ pre mid post, s.data = pre ++ 'a' :: 't' :: (mid ++ post) ∧ 50 ≤ mid.length ∧
    ∀ c ∈ mid, isTxnChar c = true

/-- Spec-side reading of "the marker `status code 201` appears in the
stream". -/
def MarkerIn (s : String) : Prop :=
  ∃ pre post, s.data = pre ++ "status code 201".data ++ post

theorem takeWhile_ge_iff (p : Char → Bool) (l : List Char) (k : Nat) :
    k ≤ (l.takeWhile p).length ↔
      ∃ mid post, l = mid ++ post ∧ k ≤ mid.length ∧ ∀ c ∈ mid, p c = true := by
  constructor
  · intro h
    exact ⟨l.takeWhile p, l.dropWhile p, (List.takeWhile_append_dropWhile p l).symm, h,
      fun c hc => List.mem_takeWhile_imp hc⟩
  · rintro ⟨mid, post, rfl, hk, hall⟩
    rw [List.takeWhile_append_of_pos hall, List.length_append]
    omega

theorem txnMatchHere_isSome_iff (cs : List Char) :
    (txnMatchHere cs).isSome = true ↔
      ∃ mid post, cs = 'a' :: 't' :: (mid ++ post) ∧ 50 ≤ mid.length ∧
        ∀ c ∈ mid, isTxnChar c = true := by
  cases cs with
  | nil => simp [txnMatchHere]
  | cons c1 t =>
    cases t with
    | nil => simp [txnMatchHere]
    | cons c2 rest =>
      simp only [txnMatchHere]
      by_cases h12 : c1 = 'a' ∧ c2 = 't'
      · obtain ⟨rfl, rfl⟩ := h12
        rw [if_pos ⟨rfl, rfl⟩]
        by_cases hrun : 50 ≤ txnRunLen rest
        · rw [if_pos hrun]
          simp only [Option.isSome_some, true_iff]
          obtain ⟨mid, post, rfl, hk, hall⟩ := (takeWhile_ge_iff isTxnChar rest 50).mp hrun
          exact ⟨mid, post, rfl, hk, hall⟩
        · rw [if_neg hrun]
          simp only [Option.isSome_none, Bool.false_eq_true, false_iff]
          rintro ⟨mid, post, heq, hk, hall⟩
          injection heq with h1 heq1
          injection heq1 with h2 heq2
          exact hrun ((takeWhile_ge_iff isTxnChar rest 50).mpr ⟨mid, post, heq2, hk, hall⟩)
      · rw [if_neg h12]
        simp only [Option.isSome_none, Bool.false_eq_true, false_iff]
        rintro ⟨mid, post, heq, hk, hall⟩
        injection heq with h1 heq1
        injection heq1 with h2 heq2
        exact h12 ⟨h1, h2⟩

theorem extractTxnList_isSome_iff (cs : List Char) :
    (extractTxnList cs).isSome = true ↔
      ∃ pre mid post, cs = pre ++ 'a' :: 't' :: (mid ++ post) ∧ 50 ≤ mid.length ∧
        ∀ c ∈ mid, isTxnChar c = true := by
  induction cs with
  | nil =>
      simp only [extractTxnList, Option.isSome_none, Bool.false_eq_true, false_iff]
      rintro ⟨pre, mid, post, heq, -, -⟩
      exact (List.cons_ne_nil _ _) (List.append_eq_nil.mp heq.symm).2
  | cons c rest ih =>
      simp only [extractTxnList]
      cases hm : txnMatchHere (c :: rest) with
      | some m =>
          simp only [Option.isSome_some, true_iff]
          have h := (txnMatchHere_isSome_iff (c :: rest)).mp (by rw [hm]; rfl)
          obtain ⟨mid, post, heq, hk, hall⟩ := h
          exact ⟨[], mid, post, by simpa using heq, hk, hall⟩
      | none =>
          simp only
          constructor
          · intro h
            obtain ⟨pre, mid, post, heq, hk, hall⟩ := ih.mp h
            exact ⟨c :: pre, mid, post, by simp [heq], hk, hall⟩
          · rintro ⟨pre, mid, post, heq, hk, hall⟩
            cases pre with
            | nil =>
                exfalso
                have hsome : (txnMatchHere (c :: rest)).isSome = true :=
                  (txnMatchHere_isSome_iff _).mpr ⟨mid, post, by simpa using heq, hk, hall⟩
                rw [hm] at hsome
                exact Bool.noConfusion hsome
            | cons p ps =>
                injection heq with h1 h2
                exact ih.mpr ⟨ps, mid, post, h2, hk, hall⟩

theorem regexTestTxn_iff (s : String) : regexTestTxn s = true ↔ TxnTokenIn s :=
  extractTxnList_isSome_iff s.data

theorem containsList_iff (needle : List Char) (hay : List Char) :
    containsList needle hay = true ↔ ∃ pre post, hay = pre ++ needle ++ post := by
  induction hay with
  | nil =>
      simp only [containsList, List.isEmpty_iff]
      constructor
      · rintro rfl
        exact ⟨[], [], rfl⟩
      · rintro ⟨pre, post, heq⟩
        have h := List.append_eq_nil.mp heq.symm
        exact (List.append_eq_nil.mp h.1).2
  | cons c rest ih =>
      simp only [containsList, Bool.or_eq_true, List.isPrefixOf_iff_prefix, ih]
      constructor
      · rintro (⟨t, ht⟩ | ⟨pre, post, rfl⟩)
        · exact ⟨[], t, by simp [ht]⟩
        · exact ⟨c :: pre, post, rfl⟩
      · rintro ⟨pre, post, heq⟩
        cases pre with
        | nil =>
            left
            exact ⟨post, by simpa using heq.symm⟩
        | cons p ps =>
            right
            injection heq with h1 h2
            exact ⟨ps, post, h2⟩

theorem includesStr_iff (hay needle : String) :
    includesStr hay needle = true ↔ ∃ pre post, hay.data = pre ++ needle.data ++ post :=
  containsList_iff needle.data hay.data

/-- Claim C8: for every exit code and accumulated stdout/stderr texts, the
`close` handler of `executeLeo` resolves with success if and only if the
process exited with code 0 and empty error output, or a token matching
`at[0-9a-z]{50,}` appears in either stream, or the marker `status code 201`
appears in either stream.  In particular output containing the
transaction-id pattern together with a nonzero exit code is classified as
success. -/
theorem c8_executeLeo_success_classification (code : Option Int)
    (dataOutput errorOutput : String) :
    leoCloseSuccess code dataOutput errorOutput = true ↔
      ((code = some 0 ∧ errorOutput = "") ∨ TxnTokenIn dataOutput ∨ TxnTokenIn errorOutput ∨
        MarkerIn dataOutput ∨ MarkerIn errorOutput) := by
  have hmd : includesStr dataOutput "status code 201" = true ↔ MarkerIn dataOutput :=
    includesStr_iff dataOutput "status code 201"
  have hme : includesStr errorOutput "status code 201" = true ↔ MarkerIn errorOutput :=
    includesStr_iff errorOutput "status code 201"
  simp only [leoCloseSuccess, Bool.or_eq_true, Bool.and_eq_true, beq_iff_eq,
    regexTestTxn_iff, hmd, hme]
  tauto

/-- Output containing a transaction id token for the C8 witness. -/
def c8TxnOutput : String := String.mk ('a' :: 't' :: List.replicate 50 'z')

/-- Witness for C8 at a concrete input: a transaction-id token in stdout
together with a nonzero exit code is classified as success. -/
theorem c8_executeLeo_success_classification_witness :
    leoCloseSuccess (some 1) c8TxnOutput "" = true :=
  (c8_executeLeo_success_classification (some 1) c8TxnOutput "").mpr
    (Or.inr (Or.inl ⟨[], List.replicate 50 'z', [], by simp [c8TxnOutput], by simp,
      fun c hc => by
        have hcz := List.eq_of_mem_replicate hc
        subst hcz
        decide⟩))

/-! ## Claim C5: what error an exhausted failover surfaces -/

theorem attestationFailoverGo_result_none (coinName : String)
    (env : Notarizer → NotarizeOutcome) (picks : Nat → Nat)
    (h : ∀ n resp, env n ≠ NotarizeOutcome.ok resp) :
    ∀ fuel remaining step errorMsg,
      (attestationFailoverGo coinName env picks fuel remaining step errorMsg).result = none := by
  intro fuel
  induction fuel with
  | zero => intro remaining step em; rfl
  | succ n ih =>
      intro remaining step em
      cases remaining with
      | nil => rfl
      | cons notarizer more =>
          simp only [attestationFailoverGo]
          split
          · rename_i resp henv
            exact absurd henv (h _ _)
          · exact ih _ _ _
          · exact ih _ _ _

/-- Concrete single-notarizer environment for the C5 counterexample: the only
candidate's `notarize` call throws `connection refused`. -/
def c5Env : Notarizer → NotarizeOutcome :=
  fun _ => NotarizeOutcome.throws "connection refused"

/-- The notarizer endpoint used in the C5 counterexample. -/
def c5Notarizer : Notarizer :=
  { address := "notarizer1.example", port := 8000, https := false, resolveFlag := false }

/-- Claim C5 as stated fails on the code: with one configured notarizer whose
attestation request throws `connection refused`, exhaustion produces the
generic error `No attestation report received for BTC`, which does not carry
the candidate's error message; moreover the loop's `errorMsg` variable is
still `none` afterwards, because the `catch` only logs and never records the
thrown message (`oracleService.ts` lines 451-456). -/
theorem c5_counterexample_generic_error_only :
    getAttestationReport "BTC" c5Env (fun _ => 0) (fun _ => 0) [c5Notarizer]
      = Except.error "No attestation report received for BTC"
    ∧ includesStr "No attestation report received for BTC" "connection refused" = false
    ∧ (attestationFailoverLoop "BTC" c5Env (fun _ => 0)
        (shuffleNotarizers (fun _ => 0) [c5Notarizer])).errorMsg = none := by
  refine ⟨by decide, by decide, by decide⟩

/-- Amended claim C5: when `getAttestationReport` exhausts every configured
notarizer without a success, it fails with the generic message
`No attestation report received for <coin>`; per-candidate failures are only
logged (only the empty-result case writes the `errorMsg` variable, and that
variable is not consulted by the final throw). -/
theorem c5_amended_exhausted_failover_generic_error (coinName : String)
    (env : Notarizer → NotarizeOutcome) (picks rand : Nat → Nat)
    (notarizers : List Notarizer) (h : ∀ n resp, env n ≠ NotarizeOutcome.ok resp) :
    getAttestationReport coinName env picks rand notarizers =
      Except.error ("No attestation report received for " ++ coinName) := by
  have hres := attestationFailoverGo_result_none coinName env picks h
    (shuffleNotarizers rand notarizers).length (shuffleNotarizers rand notarizers) 0 none
  simp [getAttestationReport, attestationFailoverLoop, hres]

/-- Witness for the amended C5 at a concrete two-notarizer configuration
whose requests always time out. -/
theorem c5_amended_exhausted_failover_generic_error_witness :
    getAttestationReport "ETH" (fun _ => NotarizeOutcome.throws "timeout")
      (fun _ => 1) (fun _ => 2)
      [{ address := "n1", port := 8000, https := false, resolveFlag := false },
       { address := "n2", port := 8001, https := true, resolveFlag := false }]
      = Except.error ("No attestation report received for " ++ "ETH") :=
  c5_amended_exhausted_failover_generic_error "ETH" _ _ _ _
    (fun _ _ h => NotarizeOutcome.noConfusion h)

/-! ## Claim C7: at most one attempt per candidate, stop on first success -/

theorem listSwap_length (l : List Notarizer) (i j : Nat) :
    (listSwap l i j).length = l.length := by
  simp [listSwap]

theorem shuffleGo_length (rand : Nat → Nat) :
    ∀ i (l : List Notarizer), (shuffleGo rand i l).length = l.length := by
  intro i
  induction i with
  | zero => intro l; rfl
  | succ n ih => intro l; rw [shuffleGo, ih, listSwap_length]

theorem shuffleNotarizers_length (rand : Nat → Nat) (notarizers : List Notarizer) :
    (shuffleNotarizers rand notarizers).length = notarizers.length :=
  shuffleGo_length rand _ notarizers

theorem getD_cons_eraseIdx_perm (l : List Notarizer) (i : Nat) (d : Notarizer)
    (h : i < l.length) : List.Perm (l.getD i d :: l.eraseIdx i) l := by
  rw [List.getD_eq_getElem l d h, List.eraseIdx_eq_take_drop_succ]
  conv_rhs => rw [← List.take_append_drop i l, List.drop_eq_getElem_cons h]
  exact List.perm_middle.symm

theorem attestationFailoverGo_queried_subperm (coinName : String)
    (env : Notarizer → NotarizeOutcome) (picks : Nat → Nat) :
    ∀ fuel remaining step errorMsg,
      List.Subperm
        (attestationFailoverGo coinName env picks fuel remaining step errorMsg).queried
        remaining := by
  intro fuel
  induction fuel with
  | zero => intro remaining step em; exact List.nil_subperm
  | succ n ih =>
      intro remaining step em
      cases remaining with
      | nil => exact List.nil_subperm
      | cons notarizer more =>
          have hlen : picks step % (notarizer :: more).length < (notarizer :: more).length :=
            Nat.mod_lt _ (by simp)
          have hperm := getD_cons_eraseIdx_perm (notarizer :: more)
            (picks step % (notarizer :: more).length) notarizer hlen
          simp only [attestationFailoverGo]
          split
          · exact ((List.subperm_cons _).2 List.nil_subperm).trans hperm.subperm
          · exact ((List.subperm_cons _).2 (ih _ _ _)).trans hperm.subperm
          · exact ((List.subperm_cons _).2 (ih _ _ _)).trans hperm.subperm

theorem attestationFailoverGo_dropLast_fail (coinName : String)
    (env : Notarizer → NotarizeOutcome) (picks : Nat → Nat) :
    ∀ fuel remaining step errorMsg,
      ∀ x ∈ (attestationFailoverGo coinName env picks fuel remaining step
        errorMsg).queried.dropLast, ∀ resp, env x ≠ NotarizeOutcome.ok resp := by
  intro fuel
  induction fuel with
  | zero => intro remaining step em; simp [attestationFailoverGo]
  | succ n ih =>
      intro remaining step em
      cases remaining with
      | nil => simp [attestationFailoverGo]
      | cons notarizer more =>
          simp only [attestationFailoverGo]
          split
          · simp
          · rename_i henv
            intro x hx resp
            rcases hq : (attestationFailoverGo coinName env picks n _ (step + 1) _).queried
              with _ | ⟨q, qs⟩
            · rw [hq] at hx
              simp at hx
            · rw [hq, List.dropLast_cons₂, List.mem_cons] at hx
              rcases hx with rfl | hx
              · intro hcontra
                rw [henv] at hcontra
                exact NotarizeOutcome.noConfusion hcontra
              · exact ih _ (step + 1) _ x (by rw [hq]; exact hx) resp
          · rename_i henv
            intro x hx resp
            rcases hq : (attestationFailoverGo coinName env picks n _ (step + 1) _).queried
              with _ | ⟨q, qs⟩
            · rw [hq] at hx
              simp at hx
            · rw [hq, List.dropLast_cons₂, List.mem_cons] at hx
              rcases hx with rfl | hx
              · intro hcontra
                rw [henv] at hcontra
                exact NotarizeOutcome.noConfusion hcontra
              · exact ih _ (step + 1) _ x (by rw [hq]; exact hx) resp

theorem attestationFailoverGo_success_last (coinName : String)
    (env : Notarizer → NotarizeOutcome) (picks : Nat → Nat) :
    ∀ fuel remaining step errorMsg resp,
      (attestationFailoverGo coinName env picks fuel remaining step errorMsg).result
          = some resp →
      ∃ last, (attestationFailoverGo coinName env picks fuel remaining step
            errorMsg).queried.getLast? = some last ∧
        env last = NotarizeOutcome.ok resp := by
  intro fuel
  induction fuel with
  | zero => intro remaining step em resp h; exact absurd h (by simp [attestationFailoverGo])
  | succ n ih =>
      intro remaining step em resp h
      cases remaining with
      | nil => exact absurd h (by simp [attestationFailoverGo])
      | cons notarizer more =>
          rw [attestationFailoverGo] at h ⊢
          split at h
          · rename_i resp0 henv
            simp only [Option.some.injEq] at h
            subst h
            exact ⟨_, rfl, henv⟩
          · rename_i henv
            obtain ⟨last, hl, he⟩ := ih _ (step + 1) _ resp h
            refine ⟨last, ?_, he⟩
            simp only []
            rcases hq : (attestationFailoverGo coinName env picks n _ (step + 1) _).queried
              with _ | ⟨q, qs⟩
            · rw [hq] at hl
              exact absurd hl (by simp)
            · rw [hq] at hl
              rw [List.getLast?_cons_cons]
              exact hl
          · rename_i henv
            obtain ⟨last, hl, he⟩ := ih _ (step + 1) _ resp h
            refine ⟨last, ?_, he⟩
            simp only []
            rcases hq : (attestationFailoverGo coinName env picks n _ (step + 1) _).queried
              with _ | ⟨q, qs⟩
            · rw [hq] at hl
              exact absurd hl (by simp)
            · rw [hq] at hl
              rw [List.getLast?_cons_cons]
              exact hl

theorem getD_cons_set_perm (d x : Notarizer) :
    ∀ (xs : List Notarizer) (k : Nat), k < xs.length →
      List.Perm (xs.getD k d :: xs.set k x) (x :: xs) := by
  intro xs
  induction xs with
  | nil => intro k hk; exact absurd hk (by simp)
  | cons y ys ih =>
      intro k hk
      cases k with
      | zero => exact List.Perm.swap x y ys
      | succ m =>
          have hm : m < ys.length := by simpa using hk
          have h1 : List.Perm (ys.getD m d :: y :: ys.set m x)
              (y :: ys.getD m d :: ys.set m x) := List.Perm.swap _ _ _
          have h2 : List.Perm (y :: ys.getD m d :: ys.set m x) (y :: x :: ys) :=
            (ih m hm).cons y
          have h3 : List.Perm (y :: x :: ys) (x :: y :: ys) := List.Perm.swap _ _ _
          exact (h1.trans h2).trans h3

theorem listSwap_perm :
    ∀ (l : List Notarizer) (i j : Nat), i < l.length → j < l.length →
      List.Perm (listSwap l i j) l := by
  intro l
  induction l with
  | nil => intro i j hi hj; exact absurd hi (by simp)
  | cons x xs ih =>
      intro i j hi hj
      cases i with
      | zero =>
          cases j with
          | zero => simp [listSwap]
          | succ k =>
              have hk : k < xs.length := by simpa using hj
              simpa [listSwap] using getD_cons_set_perm _ x xs k hk
      | succ m =>
          cases j with
          | zero =>
              have hm : m < xs.length := by simpa using hi
              simpa [listSwap] using getD_cons_set_perm _ x xs m hm
          | succ k =>
              have hm : m < xs.length := by simpa using hi
              have hk : k < xs.length := by simpa using hj
              have := ih m k hm hk
              simpa [listSwap] using this.cons x

theorem shuffleGo_perm (rand : Nat → Nat) :
    ∀ i (l : List Notarizer), i < l.length → List.Perm (shuffleGo rand i l) l := by
  intro i
  induction i with
  | zero => intro l h; rfl
  | succ n ih =>
      intro l h
      have hj : rand (n + 1) % (n + 2) < l.length :=
        lt_of_le_of_lt (Nat.le_of_lt_succ (Nat.mod_lt _ (by omega))) h
      have hswap := listSwap_perm l (n + 1) (rand (n + 1) % (n + 2)) h hj
      have hlen : n < (listSwap l (n + 1) (rand (n + 1) % (n + 2))).length := by
        rw [listSwap_length]; omega
      exact (ih _ hlen).trans hswap

theorem shuffleNotarizers_perm (rand : Nat → Nat) (notarizers : List Notarizer) :
    List.Perm (shuffleNotarizers rand notarizers) notarizers := by
  cases notarizers with
  | nil => rfl
  | cons x xs =>
      exact shuffleGo_perm rand (x :: xs).length.pred (x :: xs) (by simp)

/-- Claim C7: `getAttestationReport` issues at most one attestation request
per notarizer before declaring failure and returns immediately on the first
successful response.  The queried candidates form a sub-multiset of the
shuffled configured list (so no candidate is queried twice), their number is
at most the configured candidate count, every queried candidate except the
last failed, and a successful result comes from the last queried candidate. -/
theorem c7_failover_attempts_bounded_first_success_wins (coinName : String)
    (env : Notarizer → NotarizeOutcome) (picks rand : Nat → Nat)
    (notarizers : List Notarizer) :
    List.Subperm
      (attestationFailoverLoop coinName env picks
        (shuffleNotarizers rand notarizers)).queried
      (shuffleNotarizers rand notarizers)
    ∧ List.Subperm
      (attestationFailoverLoop coinName env picks
        (shuffleNotarizers rand notarizers)).queried
      notarizers
    ∧ (attestationFailoverLoop coinName env picks
        (shuffleNotarizers rand notarizers)).queried.length ≤ notarizers.length
    ∧ (∀ x ∈ (attestationFailoverLoop coinName env picks
          (shuffleNotarizers rand notarizers)).queried.dropLast,
        ∀ resp, env x ≠ NotarizeOutcome.ok resp)
    ∧ (∀ resp, (attestationFailoverLoop coinName env picks
          (shuffleNotarizers rand notarizers)).result = some resp →
        ∃ last, (attestationFailoverLoop coinName env picks
            (shuffleNotarizers rand notarizers)).queried.getLast? = some last ∧
          env last = NotarizeOutcome.ok resp) := by
  have hsub := attestationFailoverGo_queried_subperm coinName env picks
    (shuffleNotarizers rand notarizers).length (shuffleNotarizers rand notarizers) 0 none
  refine ⟨hsub, hsub.trans (shuffleNotarizers_perm rand notarizers).subperm, ?_, ?_, ?_⟩
  · exact hsub.length_le.trans (le_of_eq (shuffleNotarizers_length rand notarizers))
  · exact attestationFailoverGo_dropLast_fail coinName env picks _ _ 0 none
  · exact fun resp h =>
      attestationFailoverGo_success_last coinName env picks _ _ 0 none resp h

/-- The notarizer endpoint used in the C7 witness. -/
def c7WitNotarizer : Notarizer :=
  { address := "n7.example", port := 9000, https := true, resolveFlag := false }

/-- Witness for C7 at a concrete one-notarizer configuration: the attempt
count is bounded by the candidate count. -/
theorem c7_failover_attempts_bounded_first_success_wins_witness :
    (attestationFailoverLoop "BTC" (fun _ => NotarizeOutcome.throws "down") (fun _ => 0)
      (shuffleNotarizers (fun _ => 0) [c7WitNotarizer])).queried.length ≤
      ([c7WitNotarizer] : List Notarizer).length :=
  (c7_failover_attempts_bounded_first_success_wins "BTC"
    (fun _ => NotarizeOutcome.throws "down") (fun _ => 0) (fun _ => 0) [c7WitNotarizer]).2.2.1

/-! ## Claim C1: termination of `setSgxData` under persistent failure -/

/-- The notarizer endpoint used in the C1 failing input. -/
def c1Notarizer : Notarizer :=
  { address := "notarizer1.example", port := 8000, https := false, resolveFlag := false }

/-- Configuration for the C1 failing input: a single notarizer, no deviation
thresholds. -/
def c1Cfg : OracleCfg :=
  { notarizers := [c1Notarizer], deviationTokens := fun _ => none }

/-- Environment for the C1 failing input: every notarize call of every
iteration throws (the notarizer is unreachable), so every
`getAttestationReport` call fails; the submission backend is never reached. -/
def c1Env : SetSgxEnv :=
  { notarize := fun _ _ => NotarizeOutcome.throws "connect ECONNREFUSED",
    picks := fun _ _ => 0, rand := fun _ _ => 0,
    leo := fun _ => Except.error "unreached" }

/-- Claim C1 fails on the code: when no notarizer ever yields a successful
attestation, the `while (!success)` loop of `setSgxData` never terminates -
for every iteration bound the loop is still running, so no terminal failure
is ever surfaced to the caller (the `if (!success) throw` after the loop at
`oracleService.ts` lines 568-570 is unreachable). -/
theorem c1_setSgxData_loops_forever_when_no_notarizer_succeeds :
    ∀ fuel k st, (setSgxDataLoop c1Cfg c1Env "BTC" false fuel k st).out = none := by
  intro fuel
  induction fuel with
  | zero => intro k st; rfl
  | succ n ih =>
      intro k st
      have hnone := attestationFailoverGo_result_none "BTC" (c1Env.notarize k)
        (c1Env.picks k) (fun _ _ h => NotarizeOutcome.noConfusion h)
      have hrep : getAttestationReport "BTC" (c1Env.notarize k) (c1Env.picks k)
          (c1Env.rand k) c1Cfg.notarizers =
          Except.error ("No attestation report received for " ++ "BTC") := by
        simp [getAttestationReport, attestationFailoverLoop, hnone]
      simp only [setSgxDataLoop, hrep]
      exact ih (k + 1) _

/-! ## Claim C3: first deviation-triggered run for a coin with no history -/

/-- The notarizer endpoint used in the C3 failing input. -/
def c3Notarizer : Notarizer :=
  { address := "notarizer2.example", port := 8001, https := false, resolveFlag := false }

/-- Configuration for the C3 failing input: one notarizer; the deviation
threshold table is never consulted because the evaluation faults first. -/
def c3Cfg : OracleCfg :=
  { notarizers := [c3Notarizer], deviationTokens := fun _ => none }

/-- The attestation every notarize call returns in the C3 failing input:
price `100` at timestamp 1. -/
def c3OracleData : OracleData :=
  { report := "report", userData := "userData", signature := "signature",
    address := "address", requestHash := "requestHash" }

/-- The attestation response body for the C3 failing input. -/
def c3Resp : AttestationResponse :=
  { oracleData := c3OracleData, timestamp := 1, attestationData := "100",
    enclaveUrl := "https://enclave.example" }

/-- Environment for the C3 failing input: every notarize call succeeds with
`c3Resp`; the submission backend would succeed too, but is never reached. -/
def c3Env : SetSgxEnv :=
  { notarize := fun _ _ => NotarizeOutcome.ok c3Resp,
    picks := fun _ _ => 0, rand := fun _ _ => 0,
    leo := fun _ => Except.error "unreached" }

/-- Claim C3 fails on the code: a deviation-triggered run for a coin with no
prior tracked price never decides "update" and never submits.
`handleDeviationBasedPriceUpdateCron` (lines 672-679) reacts to a null
`getLastTrackedPrice` by calling `setSgxData` with `checkDeviation: true`;
inside the loop `getLastTrackedPrice` is null again (the read path never
matches the write path), the null is cast and dereferenced inside
`checkTokenPriceDeviation`, and the resulting TypeError is swallowed by the
loop, which retries forever: for every iteration bound the loop is still
running and the submission count stays unchanged. -/
theorem c3_first_run_deviation_never_submits :
    ∀ fuel k st, st.fs (lastTrackedPricePath "BTC") = none →
      (setSgxDataLoop c3Cfg c3Env "BTC" true fuel k st).out = none ∧
      (setSgxDataLoop c3Cfg c3Env "BTC" true fuel k st).state.submissions = st.submissions := by
  intro fuel
  induction fuel with
  | zero => intro k st h; exact ⟨rfl, rfl⟩
  | succ n ih =>
      intro k st h
      have hrep : getAttestationReport "BTC" (c3Env.notarize k) (c3Env.picks k)
          (c3Env.rand k) c3Cfg.notarizers = Except.ok c3Resp := rfl
      have hpath : lastTrackedPricePath "BTC" ≠ priceFilePath "BTC" := by decide
      have hfs1 : (trackCoinPrice st.fs "BTC" c3Resp.timestamp c3Resp.attestationData)
          (lastTrackedPricePath "BTC") = none := by
        simp only [trackCoinPrice, fsAppend]
        rw [if_neg hpath]
        exact h
      have hlast : getLastTrackedPrice
          (trackCoinPrice st.fs "BTC" c3Resp.timestamp c3Resp.attestationData) "BTC" = none := by
        unfold getLastTrackedPrice
        rw [hfs1]
      simp only [setSgxDataLoop, hrep, hlast, if_true]
      exact ih (k + 1) _ hfs1


/-- Witness for C3 at the concrete initial state: an empty filesystem, three
iterations of fuel, zero submissions before and after. -/
theorem c3_first_run_deviation_never_submits_witness :
    (setSgxData c3Cfg c3Env fsEmpty "BTC" true 3).out = none ∧
    (setSgxData c3Cfg c3Env fsEmpty "BTC" true 3).state.submissions = 0 :=
  c3_first_run_deviation_never_submits 3 0
    { fs := fsEmpty, errorMsg := none, submissions := 0 } rfl

/-! ## Claim C10: every job either fully stopped or fully running -/

/-- The direction of the claimed invariant that the code does maintain: an
active timer always has a stats entry, for both job kinds. -/
def TimerImpliesStats (st : SchedulerState) : Prop :=
  ∀ coin, (st.periodicJob coin = true → (st.periodicStats coin).isSome = true) ∧
    (st.deviationJob coin = true → (st.deviationStats coin).isSome = true)

theorem startPeriodicForCoin_inv (validate : String → Bool)
    (tokens : String → Option TokenCronConfig) (st : SchedulerState) (coin : String)
    (h : TimerImpliesStats st) :
    TimerImpliesStats (startPeriodicForCoin validate tokens st coin) := by
  intro c
  simp only [startPeriodicForCoin]
  split
  · exact h c
  · split
    · exact h c
    · split
      · refine ⟨?_, (h c).2⟩
        intro hj
        by_cases hc : c = coin
        · subst hc
          simp [setFun]
        · simp only [setFun, if_neg hc] at hj ⊢
          exact (h c).1 hj
      · refine ⟨?_, (h c).2⟩
        intro hj
        by_cases hc : c = coin
        · subst hc
          simp [setFun]
        · simp only [setFun, if_neg hc]
          exact (h c).1 hj

theorem startDeviationForCoin_inv (validate : String → Bool)
    (tokens : String → Option TokenCronConfig) (st : SchedulerState) (coin : String)
    (h : TimerImpliesStats st) :
    TimerImpliesStats (startDeviationForCoin validate tokens st coin) := by
  intro c
  simp only [startDeviationForCoin]
  split
  · exact h c
  · split
    · split
      · exact h c
      · cases hds : st.deviationStats coin with
        | none =>
            refine ⟨(h c).1, ?_⟩
            intro hj
            by_cases hc : c = coin
            · subst hc
              simp [setFun]
            · simp only [setFun, if_neg hc] at hj ⊢
              exact (h c).2 hj
        | some entry =>
            refine ⟨(h c).1, ?_⟩
            intro hj
            by_cases hc : c = coin
            · subst hc
              simp [hds]
            · simp only [setFun, if_neg hc] at hj
              exact (h c).2 hj
    · exact h c

theorem stopPeriodicForCoin_inv (st : SchedulerState) (coin : String)
    (h : TimerImpliesStats st) : TimerImpliesStats (stopPeriodicForCoin st coin) := by
  intro c
  simp only [stopPeriodicForCoin]
  split
  · refine ⟨?_, (h c).2⟩
    intro hj
    by_cases hc : c = coin
    · subst hc
      simp [setFun] at hj
    · simp only [setFun, if_neg hc] at hj ⊢
      exact (h c).1 hj
  · exact h c

theorem stopDeviationForCoin_inv (st : SchedulerState) (coin : String)
    (h : TimerImpliesStats st) : TimerImpliesStats (stopDeviationForCoin st coin) := by
  intro c
  simp only [stopDeviationForCoin]
  split
  · refine ⟨(h c).1, ?_⟩
    intro hj
    by_cases hc : c = coin
    · subst hc
      simp [setFun] at hj
    · simp only [setFun, if_neg hc] at hj ⊢
      exact (h c).2 hj
  · exact h c

theorem foldl_preserves_inv {α : Type} {f : SchedulerState → α → SchedulerState}
    (hf : ∀ st a, TimerImpliesStats st → TimerImpliesStats (f st a)) :
    ∀ (l : List α) (st : SchedulerState),
      TimerImpliesStats st → TimerImpliesStats (l.foldl f st) := by
  intro l
  induction l with
  | nil => intro st h; exact h
  | cons a rest ih => intro st h; exact ih (f st a) (hf st a h)

theorem applySchedOp_inv (validate : String → Bool)
    (periodicTokens deviationTokens : String → Option TokenCronConfig)
    (coinList : List String) (st : SchedulerState) (op : SchedOp)
    (h : TimerImpliesStats st) :
    TimerImpliesStats (applySchedOp validate periodicTokens deviationTokens coinList st op) := by
  cases op with
  | startPeriodic target =>
      exact foldl_preserves_inv
        (fun st c h => startPeriodicForCoin_inv validate periodicTokens st c h) _ st h
  | stopPeriodic target =>
      exact foldl_preserves_inv (fun st c h => stopPeriodicForCoin_inv st c h) _ st h
  | startDeviation target =>
      exact foldl_preserves_inv
        (fun st c h => startDeviationForCoin_inv validate deviationTokens st c h) _ st h
  | stopDeviation target =>
      exact foldl_preserves_inv (fun st c h => stopDeviationForCoin_inv st c h) _ st h

theorem initSchedulerState_inv : TimerImpliesStats initSchedulerState :=
  fun _ => ⟨fun h => Bool.noConfusion h, fun h => Bool.noConfusion h⟩

theorem runSchedOps_inv (validate : String → Bool)
    (periodicTokens deviationTokens : String → Option TokenCronConfig)
    (coinList : List String) (ops : List SchedOp) :
    TimerImpliesStats (runSchedOps validate periodicTokens deviationTokens coinList ops) :=
  foldl_preserves_inv
    (fun st op h => applySchedOp_inv validate periodicTokens deviationTokens coinList st op h)
    ops initSchedulerState initSchedulerState_inv

/-- The periodic-cron configuration used in the C10 counterexample: coin BTC
is configured with a valid schedule but `enabled: false`. -/
def c10Tokens : String → Option TokenCronConfig :=
  fun coin => if coin = "BTC" then some { schedule := "*/5 * * * *", enabled := false }
    else none

/-- Claim C10 as stated fails on the code: starting the periodic cron for a
coin whose cron is disabled writes a stats entry (the assignment at
`oracleService.ts` line 923 sits outside the `if (cronEnabled)` guards) but
arms no timer, so the reachable state has a stats entry without an active
timer - a partial state the claim rules out. -/
theorem c10_counterexample_stats_without_timer :
    ((runSchedOps (fun _ => true) c10Tokens (fun _ => none) ["BTC"]
        [SchedOp.startPeriodic (some "BTC")]).periodicStats "BTC").isSome = true
    ∧ (runSchedOps (fun _ => true) c10Tokens (fun _ => none) ["BTC"]
        [SchedOp.startPeriodic (some "BTC")]).periodicJob "BTC" = false := by
  exact ⟨by decide, by decide⟩

/-- Amended claim C10: after every sequence of start and stop operations,
every (coin, job-kind) with an active timer has a stats entry (and stopping
removes both), but the converse direction of the original claim fails: a
stats entry can exist without an active timer. -/
theorem c10_amended_running_jobs_have_stats (validate : String → Bool)
    (periodicTokens deviationTokens : String → Option TokenCronConfig)
    (coinList : List String) (ops : List SchedOp) (coin : String) :
    ((runSchedOps validate periodicTokens deviationTokens coinList ops).periodicJob coin
        = true →
      ((runSchedOps validate periodicTokens deviationTokens coinList ops).periodicStats
        coin).isSome = true) ∧
    ((runSchedOps validate periodicTokens deviationTokens coinList ops).deviationJob coin
        = true →
      ((runSchedOps validate periodicTokens deviationTokens coinList ops).deviationStats
        coin).isSome = true) :=
  runSchedOps_inv validate periodicTokens deviationTokens coinList ops coin

/-- The periodic-cron configuration used in the C10 witness: coin BTC
enabled with a valid schedule. -/
def c10WitTokens : String → Option TokenCronConfig :=
  fun coin => if coin = "BTC" then some { schedule := "*/5 * * * *", enabled := true }
    else none

/-- Witness for the amended C10: after starting the enabled periodic cron for
BTC the timer is active, and the theorem yields the stats entry. -/
theorem c10_amended_running_jobs_have_stats_witness :
    ((runSchedOps (fun _ => true) c10WitTokens (fun _ => none) ["BTC"]
        [SchedOp.startPeriodic (some "BTC")]).periodicStats "BTC").isSome = true :=
  (c10_amended_running_jobs_have_stats (fun _ => true) c10WitTokens (fun _ => none) ["BTC"]
      [SchedOp.startPeriodic (some "BTC")] "BTC").1 (by decide)


end Oracle
